import Mathlib

/-!
Verification of the Federated Learning Round Coordinator and Aggregation
Engine (`mediledger_nexus/ai/federated_learning.py`).

Shallow embedding conventions:
* numpy 1-D arrays are `List ℚ` (exact rational arithmetic stands in for
  float64; every claim checked here involves only dyadic values on which
  float64 arithmetic is exact);
* Python `dict` is an association list together with the insert/erase
  operations that preserve Python's key-uniqueness and insertion order;
* Python object mutation is modelled by explicit state passing: every
  method that mutates a round or the engine returns the updated value;
* `async` methods contain no await points between the update insertion and
  the completion check, so each call body is embedded as one atomic state
  transformation (cooperative asyncio scheduling cannot preempt it);
* the Groq AI call inside `_generate_learning_insights` is external I/O;
  its outcome is a parameter `insights : Option String` (`none` models the
  call raising, which the method's own `except` block swallows);
* `_extract_model_weights` reads sklearn attributes (`coef_`, …) from the
  submitted estimator; the extracted arrays are abstracted as a
  `WeightDict` parameter, while the metadata enrichment it performs is
  embedded faithfully.
-/

namespace FedLearn

/-- A numpy 1-D array of float64, embedded as a list of rationals. -/
abbrev Arr := List ℚ

/-- Values stored in a Python metadata dict (`Dict[str, Any]`): strings,
integers, and the opaque insights payload returned by the Groq service. -/
inductive MetaVal where
  | str (s : String)
  | num (n : Nat)
  | ins (s : String)
deriving DecidableEq

/-- `Dict[str, Any]` metadata. -/
abbrev Metadata := List (String × MetaVal)

/-- `Dict[str, np.ndarray]`. -/
abbrev WeightDict := List (String × Arr)

/-- Python `d.get(k)` / `d[k]` on an association list. -/
def dictGet (k : String) : List (String × α) → Option α
  | [] => none
  | (k1, v) :: rest => if k1 = k then some v else dictGet k rest

/-- Python `d[k] = v`: overwrite in place if the key exists, else append. -/
def dictInsert : List (String × α) → String → α → List (String × α)
  | [], k, v => [(k, v)]
  | (k1, v1) :: rest, k, v =>
    if k1 = k then (k, v) :: rest else (k1, v1) :: dictInsert rest k v

/-- Python `del d[k]` (keys are unique in a Python dict, so removing every
occurrence agrees with removing the one entry). -/
def dictErase : List (String × α) → String → List (String × α)
  | [], _ => []
  | (k1, v) :: rest, k =>
    if k1 = k then dictErase rest k else (k1, v) :: dictErase rest k

/-- `ModelWeights`: container for model weights and metadata.
`participant_id` is captured from the metadata at construction time
(`metadata.get("participant_id")`) and is not recomputed afterwards. -/
structure ModelWeights where
  weights : WeightDict
  metadata : Metadata
  participant_id : Option MetaVal
deriving DecidableEq

/-- `ModelWeights.__init__`. -/
def mkModelWeights (w : WeightDict) (md : Metadata) : ModelWeights :=
  { weights := w, metadata := md, participant_id := dictGet "participant_id" md }

/-- Round lifecycle states.  The source only ever assigns `waiting`,
`training`, `aggregating` and `completed`; `failed` appears in the spec's
state machine and is included so that claims mentioning it can be stated. -/
inductive Status where
  | waiting
  | training
  | aggregating
  | completed
  | failed
deriving DecidableEq

/-- `FederatedLearningRound`. -/
structure FLRound where
  round_id : String
  study_type : String
  min_participants : Nat
  participants : List String
  model_updates : List ModelWeights
  global_model : Option ModelWeights
  status : Status
deriving DecidableEq

/-- `FederatedLearningRound.__init__`. -/
def mkRound (rid study : String) (minP : Nat) : FLRound :=
  { round_id := rid, study_type := study, min_participants := minP,
    participants := [], model_updates := [], global_model := none,
    status := Status.waiting }

/-- `FederatedLearningRound.add_participant`. -/
def addParticipant (r : FLRound) (pid : String) : FLRound × Bool :=
  if pid ∈ r.participants then (r, false)
  else ({ r with participants := r.participants ++ [pid] }, true)

/-- `FederatedLearningRound.can_start`: `len(participants) >= min_participants`. -/
def canStart (r : FLRound) : Bool :=
  decide (r.min_participants ≤ r.participants.length)

/-- `FederatedLearningRound.add_model_update`: accept iff the update's
`participant_id` is a member of `participants` (a non-string or missing
id is never a member of a list of strings in Python). -/
def addModelUpdate (r : FLRound) (mw : ModelWeights) : FLRound × Bool :=
  match mw.participant_id with
  | some (MetaVal.str s) =>
    if s ∈ r.participants then
      ({ r with model_updates := r.model_updates ++ [mw] }, true)
    else (r, false)
  | _ => (r, false)

/-- `FederatedLearningRound.is_complete`:
`len(model_updates) >= len(participants)`. -/
def isComplete (r : FLRound) : Bool :=
  decide (r.participants.length ≤ r.model_updates.length)

/-- All weight keys appearing in any update (`set()` union), in first-seen
order; Python's set iteration order is arbitrary, and every property we
state about the resulting dict is order-insensitive (via `dictGet`). -/
def allKeys (updates : List ModelWeights) : List String :=
  (updates.foldl (fun acc u => acc ++ u.weights.map Prod.fst) []).dedup

/-- Arrays contributed for one key by exactly the updates containing it. -/
def weightsForKey (updates : List ModelWeights) (k : String) : List Arr :=
  updates.filterMap (fun u => dictGet k u.weights)

/-- `np.mean(xss, axis=0)` on a list of 1-D arrays: element-wise mean when
all arrays have equal length, otherwise numpy raises (inhomogeneous
shape), embedded as `none`.  Never called on `[]` by the engine. -/
def npMeanAxis0 (xss : List Arr) : Option Arr :=
  match xss with
  | [] => none
  | x :: _ =>
    if ∀ ys ∈ xss, ys.length = x.length then
      some ((List.range x.length).map fun i =>
        (xss.map fun ys => ys.getD i 0).sum / (xss.length : ℚ))
    else none

/-- The per-key averaging loop of `_federated_average`; `none` models a
numpy exception escaping the loop (caught by the enclosing `except`). -/
def avgKeys (updates : List ModelWeights) : List String → Option WeightDict
  | [] => some []
  | k :: ks =>
    let wfk := weightsForKey updates k
    if wfk = [] then avgKeys updates ks
    else
      match npMeanAxis0 wfk with
      | none => none
      | some arr =>
        match avgKeys updates ks with
        | none => none
        | some d => some ((k, arr) :: d)

/-- `FederatedLearningEngine._federated_average`: empty input returns `{}`;
any exception inside the loop is caught and `{}` is returned. -/
def federatedAverage (updates : List ModelWeights) : WeightDict :=
  if updates = [] then []
  else
    match avgKeys updates (allKeys updates) with
    | some d => d
    | none => []

/-- `FederatedLearningEngine._extract_model_weights`: the sklearn attribute
arrays are the `modelWeights` parameter; the method then writes
`participant_id`, `model_type` and `n_features` into the caller's
metadata dict and wraps everything in a `ModelWeights`. -/
def extractModelWeights (modelWeights : WeightDict) (pid : String)
    (md : Metadata) (modelType : String) (nFeatures : Nat) : ModelWeights :=
  let md1 := dictInsert md "participant_id" (MetaVal.str pid)
  let md2 := dictInsert md1 "model_type" (MetaVal.str modelType)
  let md3 := dictInsert md2 "n_features" (MetaVal.num nFeatures)
  mkModelWeights modelWeights md3

/-- `FederatedLearningEngine._generate_learning_insights`: no-op without a
global model or when the Groq call raises (`insights = none`); otherwise
writes `metadata["ai_insights"] = insights` into the round's existing
global model (the `participant_id` attribute captured at construction is
untouched, exactly as in the source). -/
def generateLearningInsights (r : FLRound) (insights : Option String) : FLRound :=
  match r.global_model with
  | none => r
  | some gm =>
    match insights with
    | none => r
    | some s =>
      let gm2 := { gm with metadata := dictInsert gm.metadata "ai_insights" (MetaVal.ins s) }
      { r with global_model := some gm2 }

/-- `FederatedLearningEngine` registry state. -/
structure Engine where
  active_rounds : List (String × FLRound)
  completed_rounds : List (String × FLRound)
deriving DecidableEq

/-- `FederatedLearningEngine.__init__`. -/
def Engine.empty : Engine :=
  { active_rounds := [], completed_rounds := [] }

/-- The metadata attached to the aggregated global model. -/
def globalMetadata (rid : String) (r : FLRound) : Metadata :=
  [("round_id", MetaVal.str rid),
   ("participants", MetaVal.num r.participants.length),
   ("aggregation_method", MetaVal.str "federated_average"),
   ("study_type", MetaVal.str r.study_type)]

/-- `FederatedLearningEngine.create_learning_round` (the fresh uuid is the
parameter `rid`). -/
def createLearningRound (e : Engine) (rid study : String) (minP : Nat) : Engine :=
  { e with active_rounds := dictInsert e.active_rounds rid (mkRound rid study minP) }

/-- `FederatedLearningEngine.join_round`: returns `false` when the round id
is not in `active_rounds` (completed rounds included); otherwise delegates
to `add_participant` and flips `waiting → training` once `can_start`. -/
def joinRound (e : Engine) (rid pid : String) : Engine × Bool :=
  match dictGet rid e.active_rounds with
  | none => (e, false)
  | some r =>
    let rb := addParticipant r pid
    let r2 :=
      if canStart rb.1 ∧ rb.1.status = Status.waiting then
        { rb.1 with status := Status.training }
      else rb.1
    ({ e with active_rounds := dictInsert e.active_rounds rid r2 }, rb.2)

/-- `FederatedLearningEngine._aggregate_models`: marks the round
`aggregating`, averages, installs the global model, marks `completed`,
moves the round to `completed_rounds`, then lets the insights step mutate
the moved round. -/
def aggregateModels (e : Engine) (rid : String) (insights : Option String) : Engine :=
  match dictGet rid e.active_rounds with
  | none => e
  | some r =>
    let r1 := { r with status := Status.aggregating }
    let gm := mkModelWeights (federatedAverage r1.model_updates) (globalMetadata rid r1)
    let r2 := { r1 with global_model := some gm, status := Status.completed }
    let r3 := generateLearningInsights r2 insights
    { active_rounds := dictErase e.active_rounds rid,
      completed_rounds := dictInsert e.completed_rounds rid r3 }

/-- `FederatedLearningEngine.submit_model_update`: extract weights, add the
update, and if `is_complete()` aggregate; the submission result is the
boolean from `add_model_update`. -/
def submitModelUpdate (e : Engine) (rid pid : String) (modelWeights : WeightDict)
    (md : Metadata) (modelType : String) (nFeatures : Nat)
    (insights : Option String) : Engine × Bool :=
  match dictGet rid e.active_rounds with
  | none => (e, false)
  | some r =>
    let mw := extractModelWeights modelWeights pid md modelType nFeatures
    let rb := addModelUpdate r mw
    let e1 := { e with active_rounds := dictInsert e.active_rounds rid rb.1 }
    let e2 := if isComplete rb.1 then aggregateModels e1 rid insights else e1
    (e2, rb.2)

/-- Engine states reachable from a fresh engine by the three public
operations (round ids are arbitrary strings standing for the generated
uuids; `create` respects the spec's `min_participants ≥ 1`). -/
inductive Reachable : Engine → Prop where
  | init : Reachable Engine.empty
  | create {e rid study minP} : Reachable e → 1 ≤ minP →
      Reachable (createLearningRound e rid study minP)
  | join {e rid pid} : Reachable e → Reachable (joinRound e rid pid).1
  | submit {e rid pid w md mt nf ins} : Reachable e →
      Reachable (submitModelUpdate e rid pid w md mt nf ins).1

/-- The element-wise arithmetic mean of a non-empty family of equal-length
1-D arrays — the spec's description of unweighted federated averaging.
The first array fixes the element count. -/
def elementwiseMean (xss : List Arr) : Arr :=
  (List.range (xss.headD []).length).map fun i =>
    (xss.map fun ys => ys.getD i 0).sum / (xss.length : ℚ)

/-- All arrays submitted under the same layer name have equal length
(no numpy shape error can occur during aggregation). -/
def ShapeConsistent (updates : List ModelWeights) : Prop :=
  ∀ k ∈ allKeys updates, ∀ a ∈ weightsForKey updates k,
    ∀ b ∈ weightsForKey updates k, a.length = b.length

instance (updates : List ModelWeights) : Decidable (ShapeConsistent updates) := by
  unfold ShapeConsistent
  infer_instance

/-- Engine-level invariant: every round still held in `active_rounds` is
`waiting` exactly when its roster is below `min_participants`. -/
def ActiveInv (e : Engine) : Prop :=
  ∀ p ∈ e.active_rounds,
    ((p : String × FLRound).2.status = Status.waiting ↔
      p.2.participants.length < p.2.min_participants)

/-! ### Concrete instances used in counterexamples and witnesses -/

/-- The spec's aggregation example: two single-layer updates. -/
def exampleUpdates : List ModelWeights :=
  [mkModelWeights [("w", [1, 3])] [("participant_id", MetaVal.str "p1")],
   mkModelWeights [("w", [2, 4])] [("participant_id", MetaVal.str "p2")]]

/-- A round with one registered participant. -/
def dupRound : FLRound :=
  { mkRound "r3" "s" 2 with participants := ["p1"] }

/-- An update owned by participant "p1". -/
def dupUpdate : ModelWeights :=
  mkModelWeights [("w", [1])] [("participant_id", MetaVal.str "p1")]

/-- A training round that already holds a 2-element array for layer "w". -/
def mismatchRound : FLRound :=
  { mkRound "r4" "s" 2 with
    participants := ["p1", "p2"],
    status := Status.training,
    model_updates :=
      [mkModelWeights [("w", [1, 2])] [("participant_id", MetaVal.str "p1")]] }

/-- Submitting a 3-element array for the same layer "w". -/
def mismatchSubmit : Engine × Bool :=
  submitModelUpdate { active_rounds := [("r4", mismatchRound)], completed_rounds := [] }
    "r4" "p2" [("w", [1, 2, 3])] [] "LogisticRegression" 3 none

/-- A training round that already holds both mismatched arrays for "w". -/
def mismatchRound2 : FLRound :=
  { mkRound "r4b" "s" 2 with
    participants := ["p1", "p2"],
    status := Status.training,
    model_updates :=
      [mkModelWeights [("w", [1, 2])] [("participant_id", MetaVal.str "p1")],
       mkModelWeights [("w", [1, 2, 3])] [("participant_id", MetaVal.str "p2")]] }

/-- The engine holding `mismatchRound2`. -/
def mismatchEngine2 : Engine :=
  { active_rounds := [("r4b", mismatchRound2)], completed_rounds := [] }

/-- An engine whose only round lives in `completed_rounds`. -/
def closedEngine : Engine :=
  { active_rounds := [],
    completed_rounds := [("rc", { mkRound "rc" "s" 1 with status := Status.completed })] }

/-- create("r1", min 3). -/
def traceEngine1 : Engine := createLearningRound Engine.empty "r1" "s" 3

/-- … then join "p1". -/
def traceEngine2 : Engine := (joinRound traceEngine1 "r1" "p1").1

/-- … then "p1" submits a single update. -/
def traceEngine3 : Engine :=
  (submitModelUpdate traceEngine2 "r1" "p1" [("w", [1, 2])] [] "LogisticRegression" 2 none).1

/-- A round holding a freshly constructed global model. -/
def insightsRound : FLRound :=
  { mkRound "r8" "s" 2 with
    global_model :=
      (some (mkModelWeights [("w", [1])] [("round_id", MetaVal.str "r8")])) }

/-- A training round with two registered participants and no updates yet. -/
def raceRound : FLRound :=
  { round_id := "r9", study_type := "s", min_participants := 2,
    participants := ["a", "b"], model_updates := [], global_model := none,
    status := Status.training }

/-- The engine holding `raceRound`. -/
def raceEngine : Engine :=
  { active_rounds := [("r9", raceRound)], completed_rounds := [] }

/-- create("r2", min 3) — a round whose roster is empty. -/
def emptyRosterEngine : Engine := createLearningRound Engine.empty "r2" "s" 3

/-! ### Association-list (Python dict) lemmas -/

theorem dictGet_dictInsert_self (d : List (String × α)) (k : String) (v : α) :
    dictGet k (dictInsert d k v) = some v := by
  induction d with
  | nil => simp [dictInsert, dictGet]
  | cons p rest ih =>
    by_cases h : p.1 = k
    · simp [dictInsert, h, dictGet]
    · simp [dictInsert, h, dictGet, ih]

theorem dictGet_dictInsert_ne (d : List (String × α)) (k k1 : String) (v : α)
    (h : k ≠ k1) : dictGet k (dictInsert d k1 v) = dictGet k d := by
  induction d with
  | nil => simp [dictInsert, dictGet, Ne.symm h]
  | cons p rest ih =>
    by_cases hp : p.1 = k1
    · simp [dictInsert, hp, dictGet, Ne.symm h]
    · simp [dictInsert, hp, dictGet, ih]

theorem mem_dictInsert {d : List (String × α)} {k k1 : String} {v v1 : α}
    (h : (k1, v1) ∈ dictInsert d k v) : (k1 = k ∧ v1 = v) ∨ (k1, v1) ∈ d := by
  induction d with
  | nil =>
    simp only [dictInsert, List.mem_singleton, Prod.mk.injEq] at h
    exact Or.inl h
  | cons p rest ih =>
    by_cases hp : p.1 = k
    · simp only [dictInsert, if_pos hp, List.mem_cons, Prod.mk.injEq] at h
      rcases h with ⟨h1, h2⟩ | h
      · exact Or.inl ⟨h1, h2⟩
      · exact Or.inr (List.mem_cons.mpr (Or.inr h))
    · simp only [dictInsert, if_neg hp, List.mem_cons] at h
      rcases h with h | h
      · exact Or.inr (List.mem_cons.mpr (Or.inl h))
      · rcases ih h with h1 | h1
        · exact Or.inl h1
        · exact Or.inr (List.mem_cons.mpr (Or.inr h1))

theorem mem_dictErase {d : List (String × α)} {k k1 : String} {v1 : α}
    (h : (k1, v1) ∈ dictErase d k) : (k1, v1) ∈ d := by
  induction d with
  | nil => simp [dictErase] at h
  | cons p rest ih =>
    by_cases hp : p.1 = k
    · simp only [dictErase, if_pos hp] at h
      exact List.mem_cons_of_mem _ (ih h)
    · simp only [dictErase, if_neg hp, List.mem_cons] at h
      rcases h with h | h
      · exact List.mem_cons.mpr (Or.inl h)
      · exact List.mem_cons_of_mem _ (ih h)

theorem dictGet_dictErase_self (d : List (String × α)) (k : String) :
    dictGet k (dictErase d k) = none := by
  induction d with
  | nil => simp [dictErase, dictGet]
  | cons p rest ih =>
    by_cases hp : p.1 = k
    · simp [dictErase, hp, ih]
    · simp [dictErase, hp, dictGet, ih]

theorem dictGet_mem {d : List (String × α)} {k : String} {v : α}
    (h : dictGet k d = some v) : (k, v) ∈ d := by
  induction d with
  | nil => simp [dictGet] at h
  | cons p rest ih =>
    by_cases hp : p.1 = k
    · simp only [dictGet, if_pos hp] at h
      obtain ⟨k1, v1⟩ := p
      cases hp
      cases h
      exact List.mem_cons_self _ _
    · simp only [dictGet, if_neg hp] at h
      exact List.mem_cons_of_mem _ (ih h)

/-! ### Key-set and averaging lemmas -/

theorem dictGet_isSome_iff_mem_keys (ws : List (String × α)) (k : String) :
    (dictGet k ws).isSome ↔ k ∈ ws.map Prod.fst := by
  induction ws with
  | nil => simp [dictGet]
  | cons p rest ih =>
    by_cases hp : p.1 = k
    · simp [dictGet, hp]
    · simp [dictGet, hp, ih, Ne.symm hp]

theorem mem_keysFold (updates : List ModelWeights) (k : String) :
    ∀ acc : List String,
      (k ∈ updates.foldl (fun acc u => acc ++ u.weights.map Prod.fst) acc ↔
        k ∈ acc ∨ ∃ u ∈ updates, k ∈ u.weights.map Prod.fst) := by
  induction updates with
  | nil => intro acc; simp
  | cons u us ih =>
    intro acc
    rw [List.foldl_cons, ih]
    simp [List.mem_append, or_assoc]

theorem mem_allKeys_iff (updates : List ModelWeights) (k : String) :
    k ∈ allKeys updates ↔ ∃ u ∈ updates, (dictGet k u.weights).isSome := by
  simp only [allKeys, List.mem_dedup, mem_keysFold, List.not_mem_nil, false_or]
  simp [dictGet_isSome_iff_mem_keys]

theorem weightsForKey_ne_nil_iff (updates : List ModelWeights) (k : String) :
    weightsForKey updates k ≠ [] ↔ ∃ u ∈ updates, (dictGet k u.weights).isSome := by
  simp [weightsForKey, List.filterMap_eq_nil_iff, Option.isSome_iff_ne_none, not_forall]

theorem mem_weightsForKey_iff (updates : List ModelWeights) (k : String) (a : Arr) :
    a ∈ weightsForKey updates k ↔ ∃ u ∈ updates, dictGet k u.weights = some a := by
  simp [weightsForKey, List.mem_filterMap]

theorem npMeanAxis0_of_consistent (x : Arr) (rest : List Arr)
    (h : ∀ ys ∈ x :: rest, ys.length = x.length) :
    npMeanAxis0 (x :: rest) = some (elementwiseMean (x :: rest)) := by
  simp only [npMeanAxis0]
  rw [if_pos h]
  simp [elementwiseMean, List.headD]

theorem npMeanAxis0_not_consistent (x : Arr) (rest : List Arr)
    (hc : ¬∀ ys ∈ x :: rest, ys.length = x.length) :
    npMeanAxis0 (x :: rest) = none := by
  simp only [npMeanAxis0]
  rw [if_neg hc]

theorem npMeanAxis0_eq_some {xss : List Arr} {arr : Arr}
    (h : npMeanAxis0 xss = some arr) : arr = elementwiseMean xss := by
  match xss with
  | [] => simp [npMeanAxis0] at h
  | x :: rest =>
    by_cases hc : ∀ ys ∈ x :: rest, ys.length = x.length
    · rw [npMeanAxis0_of_consistent x rest hc] at h
      exact (Option.some_inj.mp h).symm
    · rw [npMeanAxis0_not_consistent x rest hc] at h
      cases h

theorem npMeanAxis0_eq_none_of {xss : List Arr} {a b : Arr}
    (ha : a ∈ xss) (hb : b ∈ xss) (hab : a.length ≠ b.length) :
    npMeanAxis0 xss = none := by
  match xss with
  | [] => simp [npMeanAxis0]
  | x :: rest =>
    simp only [npMeanAxis0]
    rw [if_neg]
    intro hall
    exact hab ((hall a ha).trans (hall b hb).symm)

theorem avgKeys_of_consistent (updates : List ModelWeights) :
    ∀ ks : List String,
      (∀ k ∈ ks, weightsForKey updates k ≠ [] →
        (npMeanAxis0 (weightsForKey updates k)).isSome) →
      ∃ d, avgKeys updates ks = some d ∧
        ∀ k, dictGet k d =
          if k ∈ ks ∧ weightsForKey updates k ≠ [] then
            npMeanAxis0 (weightsForKey updates k)
          else none := by
  intro ks
  induction ks with
  | nil =>
    intro _
    exact ⟨[], rfl, fun k => by simp [dictGet]⟩
  | cons k0 ks ih =>
    intro h
    obtain ⟨d, hd, hget⟩ := ih (fun k hk => h k (List.mem_cons_of_mem _ hk))
    by_cases hw : weightsForKey updates k0 = []
    · refine ⟨d, ?_, ?_⟩
      · simp only [avgKeys, if_pos hw]
        exact hd
      · intro k
        rw [hget k]
        by_cases hkk : k = k0
        · subst hkk
          simp [hw]
        · simp [List.mem_cons, hkk]
    · obtain ⟨arr, harr⟩ := Option.isSome_iff_exists.mp (h k0 (List.mem_cons_self _ _) hw)
      refine ⟨(k0, arr) :: d, ?_, ?_⟩
      · simp only [avgKeys, if_neg hw, harr, hd]
      · intro k
        by_cases hkk : k = k0
        · subst hkk
          simp [dictGet, hw, harr]
        · simp only [dictGet, if_neg (fun h1 : k0 = k => hkk h1.symm)]
          rw [hget k]
          simp [List.mem_cons, hkk]

/-! ### Operation equation lemmas -/

theorem addParticipant_not_mem {r : FLRound} {pid : String} (h : pid ∉ r.participants) :
    addParticipant r pid = ({ r with participants := r.participants ++ [pid] }, true) := by
  simp only [addParticipant, if_neg h]

theorem addParticipant_mem {r : FLRound} {pid : String} (h : pid ∈ r.participants) :
    addParticipant r pid = (r, false) := by
  simp only [addParticipant, if_pos h]

theorem addModelUpdate_mem {r : FLRound} {mw : ModelWeights} {s : String}
    (hid : mw.participant_id = some (MetaVal.str s)) (hs : s ∈ r.participants) :
    addModelUpdate r mw = ({ r with model_updates := r.model_updates ++ [mw] }, true) := by
  simp only [addModelUpdate, hid, if_pos hs]

theorem addModelUpdate_not_mem {r : FLRound} {mw : ModelWeights} {s : String}
    (hid : mw.participant_id = some (MetaVal.str s)) (hs : s ∉ r.participants) :
    addModelUpdate r mw = (r, false) := by
  simp only [addModelUpdate, hid, if_neg hs]

theorem addModelUpdate_fields (r : FLRound) (mw : ModelWeights) :
    (addModelUpdate r mw).1.status = r.status ∧
    (addModelUpdate r mw).1.participants = r.participants ∧
    (addModelUpdate r mw).1.min_participants = r.min_participants := by
  simp only [addModelUpdate]
  split
  · split <;> exact ⟨rfl, rfl, rfl⟩
  · exact ⟨rfl, rfl, rfl⟩

theorem extract_participant_id (w : WeightDict) (pid : String) (md : Metadata)
    (mt : String) (nf : Nat) :
    (extractModelWeights w pid md mt nf).participant_id = some (MetaVal.str pid) := by
  simp only [extractModelWeights, mkModelWeights]
  rw [dictGet_dictInsert_ne _ _ _ _ (by decide), dictGet_dictInsert_ne _ _ _ _ (by decide),
    dictGet_dictInsert_self]

theorem extract_weights (w : WeightDict) (pid : String) (md : Metadata)
    (mt : String) (nf : Nat) : (extractModelWeights w pid md mt nf).weights = w := rfl

theorem gli_none (r : FLRound) : generateLearningInsights r none = r := by
  cases h : r.global_model <;> simp [generateLearningInsights, h]

theorem gli_no_global {r : FLRound} (ins : Option String) (h : r.global_model = none) :
    generateLearningInsights r ins = r := by
  simp [generateLearningInsights, h]

theorem gli_some {r : FLRound} {gm : ModelWeights} {s : String}
    (h : r.global_model = some gm) :
    generateLearningInsights r (some s) =
      { r with global_model := some { gm with
          metadata := dictInsert gm.metadata "ai_insights" (MetaVal.ins s) } } := by
  simp [generateLearningInsights, h]

theorem gli_global {r : FLRound} {gm : ModelWeights} (ins : Option String)
    (h : r.global_model = some gm) :
    ∃ gm2, (generateLearningInsights r ins).global_model = some gm2 ∧
      gm2.weights = gm.weights ∧ gm2.participant_id = gm.participant_id ∧
      (generateLearningInsights r ins).status = r.status ∧
      (generateLearningInsights r ins).participants = r.participants ∧
      (generateLearningInsights r ins).model_updates = r.model_updates := by
  cases ins with
  | none => exact ⟨gm, by rw [gli_none]; exact h, rfl, rfl, by rw [gli_none],
      by rw [gli_none], by rw [gli_none]⟩
  | some s =>
    refine ⟨{ gm with metadata := dictInsert gm.metadata "ai_insights" (MetaVal.ins s) },
      ?_, rfl, rfl, ?_, ?_, ?_⟩ <;> rw [gli_some h]

theorem joinRound_not_found {e : Engine} {rid : String} (pid : String)
    (h : dictGet rid e.active_rounds = none) : joinRound e rid pid = (e, false) := by
  simp only [joinRound, h]

theorem joinRound_found {e : Engine} {rid : String} {r : FLRound} (pid : String)
    (h : dictGet rid e.active_rounds = some r) :
    joinRound e rid pid =
      ({ e with active_rounds := (dictInsert e.active_rounds rid
          (if canStart (addParticipant r pid).1 ∧
              (addParticipant r pid).1.status = Status.waiting
           then { (addParticipant r pid).1 with status := Status.training }
           else (addParticipant r pid).1)) }, (addParticipant r pid).2) := by
  simp only [joinRound, h]

theorem aggregateModels_not_found {e : Engine} {rid : String} (ins : Option String)
    (h : dictGet rid e.active_rounds = none) : aggregateModels e rid ins = e := by
  simp only [aggregateModels, h]

theorem aggregateModels_found {e : Engine} {rid : String} {r : FLRound} (ins : Option String)
    (h : dictGet rid e.active_rounds = some r) :
    aggregateModels e rid ins =
      { active_rounds := dictErase e.active_rounds rid,
        completed_rounds := (dictInsert e.completed_rounds rid
          (generateLearningInsights
            ({ r with
               status := Status.completed,
               global_model := (some (mkModelWeights (federatedAverage r.model_updates)
                 (globalMetadata rid { r with status := Status.aggregating }))) }) ins)) } := by
  simp only [aggregateModels, h]

theorem submit_not_found {e : Engine} {rid : String} (pid : String) (w : WeightDict)
    (md : Metadata) (mt : String) (nf : Nat) (ins : Option String)
    (h : dictGet rid e.active_rounds = none) :
    submitModelUpdate e rid pid w md mt nf ins = (e, false) := by
  simp only [submitModelUpdate, h]

theorem submit_found {e : Engine} {rid : String} {r : FLRound} (pid : String)
    (w : WeightDict) (md : Metadata) (mt : String) (nf : Nat) (ins : Option String)
    (h : dictGet rid e.active_rounds = some r) :
    submitModelUpdate e rid pid w md mt nf ins =
      (if isComplete (addModelUpdate r (extractModelWeights w pid md mt nf)).1 then
         aggregateModels { e with active_rounds := (dictInsert e.active_rounds rid
             (addModelUpdate r (extractModelWeights w pid md mt nf)).1) } rid ins
       else { e with active_rounds := (dictInsert e.active_rounds rid
           (addModelUpdate r (extractModelWeights w pid md mt nf)).1) },
       (addModelUpdate r (extractModelWeights w pid md mt nf)).2) := by
  simp only [submitModelUpdate, h]

/-! ### Derived lemmas about averaging and submission paths -/

theorem shapeConsistent_isSome (updates : List ModelWeights)
    (hsc : ShapeConsistent updates) (k : String)
    (hw : weightsForKey updates k ≠ []) :
    (npMeanAxis0 (weightsForKey updates k)).isSome := by
  have hk : k ∈ allKeys updates :=
    (mem_allKeys_iff updates k).mpr ((weightsForKey_ne_nil_iff updates k).mp hw)
  match hxx : weightsForKey updates k with
  | [] => exact absurd hxx hw
  | x :: rest =>
    rw [npMeanAxis0_of_consistent x rest]
    · rfl
    · intro ys hys
      exact hsc k hk ys (hxx ▸ hys) x (hxx ▸ List.mem_cons_self x rest)

theorem avgKeys_eq_none (updates : List ModelWeights) :
    ∀ ks : List String, ∀ k ∈ ks, weightsForKey updates k ≠ [] →
      npMeanAxis0 (weightsForKey updates k) = none →
      avgKeys updates ks = none := by
  intro ks
  induction ks with
  | nil => intro k hk; cases hk
  | cons k0 ks ih =>
    intro k hk hw hnone
    by_cases hw0 : weightsForKey updates k0 = []
    · rcases List.mem_cons.mp hk with h1 | hk1
      · exact absurd (h1 ▸ hw0) hw
      · simp only [avgKeys, if_pos hw0]
        exact ih k hk1 hw hnone
    · rcases List.mem_cons.mp hk with h1 | hk1
      · subst h1
        simp only [avgKeys, if_neg hw0, hnone]
      · simp only [avgKeys, if_neg hw0]
        cases hm : npMeanAxis0 (weightsForKey updates k0) with
        | none => rfl
        | some arr => simp only [ih k hk1 hw hnone]

theorem federatedAverage_of_mismatch (updates : List ModelWeights)
    (hmis : ∃ k ∈ allKeys updates, ∃ a ∈ weightsForKey updates k,
      ∃ b ∈ weightsForKey updates k, a.length ≠ b.length) :
    federatedAverage updates = [] := by
  obtain ⟨k, hk, a, ha, b, hb, hab⟩ := hmis
  have hw : weightsForKey updates k ≠ [] := by
    intro h0
    rw [h0] at ha
    cases ha
  have hne : updates ≠ [] := by
    intro h0
    subst h0
    simp [weightsForKey] at ha
  have hnone : npMeanAxis0 (weightsForKey updates k) = none :=
    npMeanAxis0_eq_none_of ha hb hab
  simp only [federatedAverage, if_neg hne,
    avgKeys_eq_none updates (allKeys updates) k hk hw hnone]

theorem submit_incomplete {e : Engine} {rid : String} {r : FLRound} {pid : String}
    (w : WeightDict) (md : Metadata) (mt : String) (nf : Nat) (ins : Option String)
    (h : dictGet rid e.active_rounds = some r) (hmem : pid ∈ r.participants)
    (hlt : r.model_updates.length + 1 < r.participants.length) :
    submitModelUpdate e rid pid w md mt nf ins =
      ({ e with active_rounds := (dictInsert e.active_rounds rid
          { r with model_updates :=
              r.model_updates ++ [extractModelWeights w pid md mt nf] }) }, true) := by
  rw [submit_found pid w md mt nf ins h,
    addModelUpdate_mem (extract_participant_id w pid md mt nf) hmem]
  rw [if_neg]
  simp only [isComplete, decide_eq_true_eq, List.length_append, List.length_cons,
    List.length_nil, not_le]
  omega

theorem submit_completes {e : Engine} {rid : String} {r : FLRound} {pid : String}
    (w : WeightDict) (md : Metadata) (mt : String) (nf : Nat) (ins : Option String)
    (h : dictGet rid e.active_rounds = some r) (hmem : pid ∈ r.participants)
    (hge : r.participants.length ≤ r.model_updates.length + 1) :
    (submitModelUpdate e rid pid w md mt nf ins).2 = true ∧
    dictGet rid (submitModelUpdate e rid pid w md mt nf ins).1.active_rounds = none ∧
    ∃ rf gm, dictGet rid (submitModelUpdate e rid pid w md mt nf ins).1.completed_rounds
        = some rf ∧
      rf.status = Status.completed ∧ rf.global_model = some gm ∧
      gm.weights = federatedAverage
        (r.model_updates ++ [extractModelWeights w pid md mt nf]) ∧
      rf.participants = r.participants ∧
      rf.model_updates = r.model_updates ++ [extractModelWeights w pid md mt nf] := by
  rw [submit_found pid w md mt nf ins h,
    addModelUpdate_mem (extract_participant_id w pid md mt nf) hmem]
  rw [if_pos]
  case hc =>
    simp only [isComplete, decide_eq_true_eq, List.length_append, List.length_cons,
      List.length_nil]
    omega
  set r1 : FLRound :=
    { r with model_updates := r.model_updates ++ [extractModelWeights w pid md mt nf] }
    with hr1
  have hget : dictGet rid (dictInsert e.active_rounds rid r1) = some r1 :=
    dictGet_dictInsert_self _ _ _
  rw [aggregateModels_found ins hget]
  set gm0 : ModelWeights := mkModelWeights (federatedAverage r1.model_updates)
    (globalMetadata rid { r1 with status := Status.aggregating }) with hgm0
  set r2 : FLRound := { r1 with status := Status.completed, global_model := some gm0 }
    with hr2
  have hr2g : r2.global_model = some gm0 := rfl
  obtain ⟨gm2, hgm2, hgw, hgpid, hst2, hparts2, hupd2⟩ := gli_global ins hr2g
  refine ⟨rfl, ?_, ?_⟩
  · exact dictGet_dictErase_self _ _
  · refine ⟨generateLearningInsights r2 ins, gm2, dictGet_dictInsert_self _ _ _, ?_, hgm2,
      ?_, ?_, ?_⟩
    · rw [hst2]
    · rw [hgw]; rfl
    · rw [hparts2]
    · rw [hupd2]

/-! ### Claim theorems -/

/-- Claim C2, counterexample: a freshly created round with
`min_participants = 3` already has `is_complete() = true` (0 updates ≥ 0
participants) although the claimed condition — updates equal participants
AND participants ≥ min_participants — is false there (0 < 3). -/
theorem is_complete_claim_cex :
    isComplete (mkRound "r1" "s" 3) = true ∧
    ¬((mkRound "r1" "s" 3).model_updates.length =
        (mkRound "r1" "s" 3).participants.length ∧
      (mkRound "r1" "s" 3).min_participants ≤
        (mkRound "r1" "s" 3).participants.length) := by
  decide

/-- Claim C2 (amended): `is_complete()` returns true iff
`len(model_updates) >= len(participants)`; the comparison is `>=`, not
`==`, and `min_participants` is not consulted at all. -/
theorem is_complete_iff (r : FLRound) :
    isComplete r = true ↔ r.participants.length ≤ r.model_updates.length := by
  simp [isComplete]

/-- Claim C3, counterexample: a second `add_model_update` for the same
participant "p1" returns true again and the updates list grows to two
entries instead of failing with DuplicateUpdateError. -/
theorem duplicate_update_cex :
    (addModelUpdate dupRound dupUpdate).1.model_updates.length = 1 ∧
    (addModelUpdate (addModelUpdate dupRound dupUpdate).1 dupUpdate).2 = true ∧
    (addModelUpdate (addModelUpdate dupRound dupUpdate).1 dupUpdate).1.model_updates.length
      = 2 := by
  decide

/-- Claim C3 (amended): there is no duplicate detection — a repeated
submission by a participant that is in the roster succeeds again and
appends a second copy of the update (`DuplicateUpdateError` does not exist
in the code). -/
theorem duplicate_update_accepted (r : FLRound) (mw : ModelWeights) (s : String)
    (hid : mw.participant_id = some (MetaVal.str s)) (hs : s ∈ r.participants) :
    (addModelUpdate r mw).2 = true ∧
    (addModelUpdate (addModelUpdate r mw).1 mw).2 = true ∧
    (addModelUpdate (addModelUpdate r mw).1 mw).1.model_updates =
      r.model_updates ++ [mw, mw] := by
  have hs2 : s ∈ ({ r with model_updates := r.model_updates ++ [mw] } : FLRound).participants :=
    hs
  simp only [addModelUpdate_mem hid hs, addModelUpdate_mem hid hs2]
  refine ⟨trivial, trivial, ?_⟩
  simp

/-- Witness for the amended claim C3 at a concrete round and update. -/
theorem duplicate_update_accepted_witness :
    dupUpdate.participant_id = some (MetaVal.str "p1") ∧
    "p1" ∈ dupRound.participants ∧
    (addModelUpdate (addModelUpdate dupRound dupUpdate).1 dupUpdate).1.model_updates =
      dupRound.model_updates ++ [dupUpdate, dupUpdate] :=
  ⟨by decide, by decide,
    (duplicate_update_accepted dupRound dupUpdate "p1" (by decide) (by decide)).2.2⟩

/-- Claim C5, counterexample: joining a round that exists only in
`completed_rounds` and joining a completely unknown round id produce the
very same outcome `(engine unchanged, false)` — the code raises neither
RoundClosedError nor RoundNotFoundError and does not distinguish the two
cases. -/
theorem join_round_errors_cex :
    joinRound closedEngine "rc" "p" = (closedEngine, false) ∧
    joinRound closedEngine "zz" "p" = (closedEngine, false) := by
  decide

/-- Claim C5 (amended): whenever `round_id` is not in `active_rounds`
(unknown id or a round already moved to `completed_rounds`), `join_round`
and `submit_model_update` both return false with the engine unchanged; no
error is raised and the two cases are not distinguished — completed
rounds are terminal for joins and submissions. -/
theorem join_submit_closed (e : Engine) (rid pid : String) (w : WeightDict)
    (md : Metadata) (mt : String) (nf : Nat) (ins : Option String)
    (h : dictGet rid e.active_rounds = none) :
    joinRound e rid pid = (e, false) ∧
    submitModelUpdate e rid pid w md mt nf ins = (e, false) :=
  ⟨joinRound_not_found pid h, submit_not_found pid w md mt nf ins h⟩

/-- Witness for the amended claim C5 at the concrete closed engine. -/
theorem join_submit_closed_witness :
    dictGet "rc" closedEngine.active_rounds = none ∧
    joinRound closedEngine "rc" "p2" = (closedEngine, false) :=
  ⟨by decide,
    (join_submit_closed closedEngine "rc" "p2" [] [] "M" 0 none (by decide)).1⟩

/-- Claim C7: on a round that is not yet closed, adding the same fresh
participant twice leaves exactly one roster entry for that id; the first
call returns true, the second returns false and changes nothing. -/
theorem add_participant_idempotent (r : FLRound) (pid : String)
    (hopen : r.status = Status.waiting ∨ r.status = Status.training)
    (hmem : pid ∉ r.participants) :
    (addParticipant r pid).2 = true ∧
    (addParticipant (addParticipant r pid).1 pid).2 = false ∧
    (addParticipant (addParticipant r pid).1 pid).1 = (addParticipant r pid).1 ∧
    (addParticipant (addParticipant r pid).1 pid).1.participants.count pid = 1 := by
  have hmem2 : pid ∈ ({ r with participants := r.participants ++ [pid] } : FLRound).participants := by
    simp
  simp only [addParticipant_not_mem hmem, addParticipant_mem hmem2]
  refine ⟨trivial, trivial, trivial, ?_⟩
  rw [List.count_append]
  simp [List.count_eq_zero.mpr hmem]

/-- Witness for claim C7 at a concrete fresh round. -/
theorem add_participant_idempotent_witness :
    ((mkRound "r7" "s" 3).status = Status.waiting ∨
      (mkRound "r7" "s" 3).status = Status.training) ∧
    "p1" ∉ (mkRound "r7" "s" 3).participants ∧
    (addParticipant (addParticipant (mkRound "r7" "s" 3) "p1").1 "p1").2 = false :=
  ⟨Or.inl rfl, by decide,
    (add_participant_idempotent (mkRound "r7" "s" 3) "p1" (Or.inl rfl) (by decide)).2.1⟩

/-- Claim C8, counterexample: the metadata of the WeightSet stored as the
round's global model changes after construction — insight generation
writes the key "ai_insights" into the existing model's metadata dict
(in the source this is an in-place mutation at
`learning_round.global_model.metadata["ai_insights"] = insights`). -/
theorem weightset_immutable_cex :
    (insightsRound.global_model.map fun g => dictGet "ai_insights" g.metadata) =
      some none ∧
    ((generateLearningInsights insightsRound (some "finding")).global_model.map
        fun g => dictGet "ai_insights" g.metadata) =
      some (some (MetaVal.ins "finding")) := by
  decide

/-- Claim C8 (amended): the weights (and the captured participant id) of a
constructed ModelWeights are never changed, but `_generate_learning_insights`
writes the key "ai_insights" into the existing global model's metadata
mapping, so the metadata is not immutable. -/
theorem insights_mutate_metadata_only (r : FLRound) (gm : ModelWeights) (s : String)
    (h : r.global_model = some gm) :
    ∃ gm2, (generateLearningInsights r (some s)).global_model = some gm2 ∧
      gm2.weights = gm.weights ∧ gm2.participant_id = gm.participant_id ∧
      dictGet "ai_insights" gm2.metadata = some (MetaVal.ins s) := by
  rw [gli_some h]
  exact ⟨_, rfl, rfl, rfl, dictGet_dictInsert_self _ _ _⟩

/-- Witness for the amended claim C8 at the concrete round. -/
theorem insights_mutate_metadata_only_witness :
    insightsRound.global_model =
      some (mkModelWeights [("w", [1])] [("round_id", MetaVal.str "r8")]) ∧
    (∃ gm2, (generateLearningInsights insightsRound (some "finding")).global_model
        = some gm2 ∧
      gm2.weights = (mkModelWeights [("w", [1])] [("round_id", MetaVal.str "r8")]).weights ∧
      gm2.participant_id =
        (mkModelWeights [("w", [1])] [("round_id", MetaVal.str "r8")]).participant_id ∧
      dictGet "ai_insights" gm2.metadata = some (MetaVal.ins "finding")) :=
  ⟨by decide,
    insights_mutate_metadata_only insightsRound
      (mkModelWeights [("w", [1])] [("round_id", MetaVal.str "r8")]) "finding" (by decide)⟩

/-- Claim C1: for every non-empty sequence of submitted weight sets whose
arrays agree in shape per layer name, `_federated_average` returns a
mapping whose keys are exactly the layer names present in at least one
input, each mapped to the element-wise arithmetic mean of the arrays of
exactly those inputs that contain that name; in particular averaging
`{"w": [1.0, 3.0]}` and `{"w": [2.0, 4.0]}` gives `{"w": [1.5, 3.5]}`
exactly. -/
theorem federated_average_correct (updates : List ModelWeights)
    (hne : updates ≠ []) (hsc : ShapeConsistent updates) :
    (∀ k, (dictGet k (federatedAverage updates)).isSome ↔
        ∃ u ∈ updates, (dictGet k u.weights).isSome) ∧
    (∀ k arr, dictGet k (federatedAverage updates) = some arr →
        arr = elementwiseMean (weightsForKey updates k)) ∧
    federatedAverage exampleUpdates = [("w", [3/2, 7/2])] := by
  obtain ⟨d, hd, hget⟩ := avgKeys_of_consistent updates (allKeys updates)
    (fun k _ hw => shapeConsistent_isSome updates hsc k hw)
  have hfa : federatedAverage updates = d := by
    simp only [federatedAverage, if_neg hne, hd]
  have hconc : federatedAverage exampleUpdates = [("w", [3/2, 7/2])] := by
    simp +decide only [federatedAverage, exampleUpdates, mkModelWeights, allKeys, avgKeys,
      weightsForKey, npMeanAxis0, dictGet, List.foldl, List.map, List.dedup_cons_of_mem,
      List.dedup_cons_of_not_mem, List.dedup_nil, List.filterMap, List.range_succ,
      List.append_nil, List.nil_append, List.cons_append, List.sum_cons, List.sum_nil,
      List.getD, List.length_cons, List.length_nil]
    simp [List.range_succ]
    norm_num
  refine ⟨?_, ?_, hconc⟩
  · intro k
    rw [hfa, hget k]
    by_cases hc : k ∈ allKeys updates ∧ weightsForKey updates k ≠ []
    · rw [if_pos hc]
      constructor
      · intro _
        exact (weightsForKey_ne_nil_iff updates k).mp hc.2
      · intro _
        exact shapeConsistent_isSome updates hsc k hc.2
    · rw [if_neg hc]
      constructor
      · intro h1
        simp at h1
      · intro hex
        exact absurd ⟨(mem_allKeys_iff updates k).mpr hex,
          (weightsForKey_ne_nil_iff updates k).mpr hex⟩ hc
  · intro k arr harr
    rw [hfa, hget k] at harr
    by_cases hc : k ∈ allKeys updates ∧ weightsForKey updates k ≠ []
    · rw [if_pos hc] at harr
      exact npMeanAxis0_eq_some harr
    · rw [if_neg hc] at harr
      cases harr

/-- Witness for claim C1 at the spec's two-participant example. -/
theorem federated_average_correct_witness :
    exampleUpdates ≠ [] ∧ ShapeConsistent exampleUpdates ∧
    federatedAverage exampleUpdates = [("w", [3/2, 7/2])] :=
  ⟨by decide, by decide,
    (federated_average_correct exampleUpdates (by decide) (by decide)).2.2⟩

/-- Claim C4, counterexample: submitting `{"w": [1.0, 2.0, 3.0]}` against
an already stored `{"w": [1.0, 2.0]}` raises nothing: the submission
returns true and the round ends in `completed_rounds` with
`status = completed` (not `failed`) and a global model whose weight
mapping is empty. -/
theorem shape_mismatch_cex :
    mismatchSubmit.2 = true ∧
    dictGet "r4" mismatchSubmit.1.active_rounds = none ∧
    ((dictGet "r4" mismatchSubmit.1.completed_rounds).map
        fun r => (r.status, r.global_model.map fun g => g.weights)) =
      some (Status.completed, some ([] : WeightDict)) := by
  decide

/-- Claim C4 (amended): when the collected updates contain two arrays of
different length under the same layer name, the numpy shape error is
caught inside `_federated_average`, which returns an empty mapping;
`_aggregate_models` then completes normally — the round moves to
`completed_rounds` with `status = completed` (never `failed`) and a global
model whose weight mapping is empty. -/
theorem shape_mismatch_completes (e : Engine) (rid : String) (ins : Option String)
    (r : FLRound) (h : dictGet rid e.active_rounds = some r)
    (hmis : ∃ k ∈ allKeys r.model_updates, ∃ a ∈ weightsForKey r.model_updates k,
      ∃ b ∈ weightsForKey r.model_updates k, a.length ≠ b.length) :
    federatedAverage r.model_updates = [] ∧
    dictGet rid (aggregateModels e rid ins).active_rounds = none ∧
    ∃ rf gm, dictGet rid (aggregateModels e rid ins).completed_rounds = some rf ∧
      rf.status = Status.completed ∧ rf.status ≠ Status.failed ∧
      rf.global_model = some gm ∧ gm.weights = [] := by
  have hfa := federatedAverage_of_mismatch r.model_updates hmis
  rw [aggregateModels_found ins h]
  set gm0 : ModelWeights := mkModelWeights (federatedAverage r.model_updates)
    (globalMetadata rid { r with status := Status.aggregating }) with hgm0
  set r2 : FLRound := { r with status := Status.completed, global_model := some gm0 }
    with hr2
  have hr2g : r2.global_model = some gm0 := rfl
  obtain ⟨gm2, hgm2, hgw, _, hst2, _, _⟩ := gli_global ins hr2g
  refine ⟨hfa, dictGet_dictErase_self _ _,
    generateLearningInsights r2 ins, gm2, dictGet_dictInsert_self _ _ _, ?_, ?_, hgm2, ?_⟩
  · rw [hst2]
  · rw [hst2]
    intro hcf
    cases hcf
  · rw [hgw]
    exact hfa

/-- Witness for the amended claim C4 at the concrete mismatched engine. -/
theorem shape_mismatch_completes_witness :
    dictGet "r4b" mismatchEngine2.active_rounds = some mismatchRound2 ∧
    federatedAverage mismatchRound2.model_updates = [] ∧
    dictGet "r4b" (aggregateModels mismatchEngine2 "r4b" none).active_rounds = none := by
  have h := shape_mismatch_completes mismatchEngine2 "r4b" none mismatchRound2 (by decide)
    ⟨"w", by decide, [1, 2], by decide, [1, 2, 3], by decide, by decide⟩
  exact ⟨by decide, h.1, h.2.1⟩

/-- Claim C10: submitting to an active round whose roster is empty is
rejected (returns false, the submitter is not a participant), yet as a side
effect `is_complete()` holds vacuously (0 updates ≥ 0 participants), so the
round aggregates: it ends `completed` with a global model whose weight
mapping is empty and is moved from `active_rounds` to `completed_rounds`. -/
theorem empty_roster_submit (e : Engine) (rid pid : String) (w : WeightDict)
    (md : Metadata) (mt : String) (nf : Nat) (ins : Option String) (r : FLRound)
    (h : dictGet rid e.active_rounds = some r) (hp : r.participants = [])
    (hu : r.model_updates = []) :
    (submitModelUpdate e rid pid w md mt nf ins).2 = false ∧
    dictGet rid (submitModelUpdate e rid pid w md mt nf ins).1.active_rounds = none ∧
    ∃ rf gm,
      dictGet rid (submitModelUpdate e rid pid w md mt nf ins).1.completed_rounds
        = some rf ∧
      rf.status = Status.completed ∧ rf.global_model = some gm ∧ gm.weights = [] ∧
      rf.participants = [] := by
  have hnm : pid ∉ r.participants := by
    rw [hp]
    simp
  have hic : isComplete r = true := by
    simp [isComplete, hp]
  simp only [submit_found pid w md mt nf ins h,
    addModelUpdate_not_mem (extract_participant_id w pid md mt nf) hnm, hic, if_true]
  have hget : dictGet rid (dictInsert e.active_rounds rid r) = some r :=
    dictGet_dictInsert_self _ _ _
  rw [aggregateModels_found ins hget]
  set gm0 : ModelWeights := mkModelWeights (federatedAverage r.model_updates)
    (globalMetadata rid { r with status := Status.aggregating }) with hgm0
  set r2 : FLRound := { r with status := Status.completed, global_model := some gm0 }
    with hr2
  have hr2g : r2.global_model = some gm0 := rfl
  obtain ⟨gm2, hgm2, hgw, _, hst2, hparts2, _⟩ := gli_global ins hr2g
  refine ⟨trivial, dictGet_dictErase_self _ _,
    generateLearningInsights r2 ins, gm2, dictGet_dictInsert_self _ _ _, ?_, hgm2, ?_, ?_⟩
  · rw [hst2]
  · rw [hgw]
    show federatedAverage r.model_updates = []
    rw [hu]
    decide
  · rw [hparts2]
    exact hp

/-- Witness for claim C10 at a freshly created round. -/
theorem empty_roster_submit_witness :
    dictGet "r2" emptyRosterEngine.active_rounds = some (mkRound "r2" "s" 3) ∧
    (mkRound "r2" "s" 3).participants = [] ∧
    (submitModelUpdate emptyRosterEngine "r2" "px" [("w", [5])] [] "M" 1 none).2
      = false :=
  ⟨by decide, rfl,
    (empty_roster_submit emptyRosterEngine "r2" "px" [("w", [5])] [] "M" 1 none
      (mkRound "r2" "s" 3) (by decide) rfl rfl).1⟩

/-- Claim C9: two racing submissions for the last two missing participants
of a `min_participants = 2` round serialize on the asyncio event loop
(there is no await point between the update insertion and the completion
check), so in either arrival order only the second submission observes
`is_complete()` and aggregates: the first returns true leaving the round
active without a global model; the second returns true, aggregation runs
exactly once, and afterwards the round is in `completed_rounds` with
`status = completed` (not `aggregating`) and the global model set. -/
theorem exactly_once_aggregation (e : Engine) (rid p1 p2 p q : String) (r : FLRound)
    (w1 w2 : WeightDict) (md1 md2 : Metadata) (mt1 mt2 : String) (nf1 nf2 : Nat)
    (ins1 ins2 : Option String)
    (h : dictGet rid e.active_rounds = some r)
    (hps : r.participants = [p1, p2]) (hdist : p1 ≠ p2)
    (hmin : r.min_participants = 2) (hupd : r.model_updates = [])
    (hst : r.status = Status.training) (hgm : r.global_model = none)
    (hpq : (p = p1 ∧ q = p2) ∨ (p = p2 ∧ q = p1)) :
    (submitModelUpdate e rid p w1 md1 mt1 nf1 ins1).2 = true ∧
    (∃ rm,
      dictGet rid (submitModelUpdate e rid p w1 md1 mt1 nf1 ins1).1.active_rounds
        = some rm ∧
      rm.global_model = none ∧ rm.status = Status.training) ∧
    (submitModelUpdate (submitModelUpdate e rid p w1 md1 mt1 nf1 ins1).1
      rid q w2 md2 mt2 nf2 ins2).2 = true ∧
    dictGet rid (submitModelUpdate (submitModelUpdate e rid p w1 md1 mt1 nf1 ins1).1
      rid q w2 md2 mt2 nf2 ins2).1.active_rounds = none ∧
    ∃ rf,
      dictGet rid (submitModelUpdate (submitModelUpdate e rid p w1 md1 mt1 nf1 ins1).1
        rid q w2 md2 mt2 nf2 ins2).1.completed_rounds = some rf ∧
      rf.status = Status.completed ∧ rf.status ≠ Status.aggregating ∧
      rf.global_model.isSome := by
  have hpmem : p ∈ r.participants := by
    rcases hpq with ⟨hp1, _⟩ | ⟨hp1, _⟩ <;> (subst hp1; simp [hps])
  have hqmem : q ∈ r.participants := by
    rcases hpq with ⟨_, hq1⟩ | ⟨_, hq1⟩ <;> (subst hq1; simp [hps])
  have hlen : r.participants.length = 2 := by
    rw [hps]
    rfl
  have hlt : r.model_updates.length + 1 < r.participants.length := by
    rw [hupd, hlen]
    decide
  rw [submit_incomplete w1 md1 mt1 nf1 ins1 h hpmem hlt]
  set r1 : FLRound :=
    { r with model_updates := r.model_updates ++ [extractModelWeights w1 p md1 mt1 nf1] }
    with hr1
  have hget1 : dictGet rid (dictInsert e.active_rounds rid r1) = some r1 :=
    dictGet_dictInsert_self _ _ _
  have hqmem1 : q ∈ r1.participants := hqmem
  have hge : r1.participants.length ≤ r1.model_updates.length + 1 := by
    show r.participants.length ≤
      (r.model_updates ++ [extractModelWeights w1 p md1 mt1 nf1]).length + 1
    rw [hlen, List.length_append, hupd]
    simp
  have hget1e : dictGet rid
      ({ e with active_rounds := (dictInsert e.active_rounds rid r1) } : Engine).active_rounds
      = some r1 := hget1
  obtain ⟨hb2, hact2, rf, gm, hcr, hstf, hgmf, _, _, _⟩ :=
    submit_completes w2 md2 mt2 nf2 ins2 hget1e hqmem1 hge
  refine ⟨rfl, ⟨r1, hget1, hgm, hst⟩, hb2, hact2, rf, hcr, hstf, ?_, ?_⟩
  · rw [hstf]
    intro hca
    cases hca
  · rw [hgmf]
    rfl

/-- Witness for claim C9 at a concrete two-participant round. -/
theorem exactly_once_aggregation_witness :
    dictGet "r9" raceEngine.active_rounds = some raceRound ∧
    raceRound.participants = ["a", "b"] ∧ ("a" : String) ≠ "b" ∧
    (submitModelUpdate (submitModelUpdate raceEngine "r9" "a" [("w", [1])] [] "M" 1 none).1
      "r9" "b" [("w", [3])] [] "M" 1 none).2 = true :=
  ⟨by decide, rfl, by decide,
    (exactly_once_aggregation raceEngine "r9" "a" "b" "a" "b" raceRound [("w", [1])]
      [("w", [3])] [] [] "M" "M" 1 1 none none (by decide) rfl (by decide) rfl rfl rfl rfl
      (Or.inl ⟨rfl, rfl⟩)).2.2.1⟩

theorem activeInv_empty : ActiveInv Engine.empty := by
  intro p hp
  cases hp

theorem activeInv_create {e : Engine} (rid study : String) {minP : Nat}
    (hmin : 1 ≤ minP) (h : ActiveInv e) :
    ActiveInv (createLearningRound e rid study minP) := by
  intro p hp
  obtain ⟨k1, r1⟩ := p
  rcases mem_dictInsert hp with ⟨hk, hr⟩ | hmem
  · subst hr
    exact iff_of_true rfl hmin
  · exact h _ hmem

theorem activeInv_join {e : Engine} (rid pid : String) (h : ActiveInv e) :
    ActiveInv (joinRound e rid pid).1 := by
  cases hg : dictGet rid e.active_rounds with
  | none =>
    rw [joinRound_not_found pid hg]
    exact h
  | some r =>
    rw [joinRound_found pid hg]
    intro p hp
    obtain ⟨k1, r1⟩ := p
    rcases mem_dictInsert hp with ⟨hk, hr⟩ | hmem
    · subst hr
      have hinv := h (rid, r) (dictGet_mem hg)
      by_cases hmem2 : pid ∈ r.participants
      · simp only [addParticipant_mem hmem2]
        by_cases hcond : (canStart r = true) ∧ r.status = Status.waiting
        · rw [if_pos hcond]
          have hle : r.min_participants ≤ r.participants.length := by
            simpa [canStart] using hcond.1
          exact iff_of_false (by simp) (Nat.not_lt.mpr hle)
        · rw [if_neg hcond]
          exact hinv
      · simp only [addParticipant_not_mem hmem2]
        by_cases hcond :
            (canStart { r with participants := r.participants ++ [pid] } = true) ∧
            ({ r with participants := r.participants ++ [pid] } : FLRound).status
              = Status.waiting
        · rw [if_pos hcond]
          have hle : r.min_participants ≤ (r.participants ++ [pid]).length := by
            simpa [canStart] using hcond.1
          exact iff_of_false (by simp) (Nat.not_lt.mpr hle)
        · rw [if_neg hcond]
          by_cases hw : r.status = Status.waiting
          · have hnc : ¬ (canStart { r with participants := r.participants ++ [pid] }
                = true) := fun hc => hcond ⟨hc, hw⟩
            have hlt : (r.participants ++ [pid]).length < r.min_participants := by
              simp only [canStart, decide_eq_true_eq] at hnc
              omega
            exact iff_of_true hw hlt
          · have hge : r.min_participants ≤ r.participants.length := by
              rcases Nat.lt_or_ge r.participants.length r.min_participants with hlt1 | hge1
              · exact absurd (hinv.mpr hlt1) hw
              · exact hge1
            refine iff_of_false hw (Nat.not_lt.mpr ?_)
            calc r.min_participants ≤ r.participants.length := hge
              _ ≤ (r.participants ++ [pid]).length := by simp
    · exact h _ hmem

theorem activeInv_aggregate {e : Engine} (rid : String) (ins : Option String)
    (h : ActiveInv e) : ActiveInv (aggregateModels e rid ins) := by
  cases hg : dictGet rid e.active_rounds with
  | none =>
    rw [aggregateModels_not_found ins hg]
    exact h
  | some r =>
    rw [aggregateModels_found ins hg]
    intro p hp
    exact h p (mem_dictErase hp)

theorem activeInv_submit {e : Engine} (rid pid : String) (w : WeightDict)
    (md : Metadata) (mt : String) (nf : Nat) (ins : Option String)
    (h : ActiveInv e) :
    ActiveInv (submitModelUpdate e rid pid w md mt nf ins).1 := by
  cases hg : dictGet rid e.active_rounds with
  | none =>
    rw [submit_not_found pid w md mt nf ins hg]
    exact h
  | some r =>
    rw [submit_found pid w md mt nf ins hg]
    have h1 : ActiveInv { e with active_rounds := (dictInsert e.active_rounds rid
        (addModelUpdate r (extractModelWeights w pid md mt nf)).1) } := by
      intro p hp
      obtain ⟨k1, r1⟩ := p
      rcases mem_dictInsert hp with ⟨hk, hr⟩ | hmem
      · subst hr
        obtain ⟨hs, hpp, hm⟩ := addModelUpdate_fields r (extractModelWeights w pid md mt nf)
        rw [hs, hpp, hm]
        exact h (rid, r) (dictGet_mem hg)
      · exact h _ hmem
    split
    · exact activeInv_aggregate rid ins h1
    · exact h1

/-- Claim C6, counterexample: after create(min_participants = 3), a single
join and a single submit — all three public operations — the round has
reached `completed` with one participant: its status is not `waiting`
although participants (1) < min_participants (3), and it completed with
fewer than min_participants participants. -/
theorem waiting_iff_claim_cex :
    Reachable traceEngine3 ∧
    ((dictGet "r1" traceEngine3.completed_rounds).map
        fun r => (r.status, r.participants.length, r.min_participants)) =
      some (Status.completed, 1, 3) := by
  constructor
  · exact Reachable.submit (Reachable.join (Reachable.create Reachable.init (by decide)))
  · decide

/-- Claim C6 (amended): for every reachable engine, the equivalence
`status = waiting ↔ participants < min_participants` holds for the rounds
still in `active_rounds`; a round that leaves `active_rounds` (via the
empty-completion path) may however complete below `min_participants`. -/
theorem active_waiting_iff_below_min (e : Engine) (he : Reachable e) :
    ∀ rid r, (rid, r) ∈ e.active_rounds →
      (r.status = Status.waiting ↔ r.participants.length < r.min_participants) := by
  have hinv : ActiveInv e := by
    induction he with
    | init => exact activeInv_empty
    | create h hmin ih => exact activeInv_create _ _ hmin ih
    | join h ih => exact activeInv_join _ _ ih
    | submit h ih => exact activeInv_submit _ _ _ _ _ _ _ ih
  intro rid r hmem
  exact hinv (rid, r) hmem

/-- Witness for the amended claim C6 at the engine created by one create. -/
theorem active_waiting_iff_below_min_witness :
    Reachable traceEngine1 ∧
    (("r1", mkRound "r1" "s" 3) ∈ traceEngine1.active_rounds) ∧
    ((mkRound "r1" "s" 3).status = Status.waiting ↔
      (mkRound "r1" "s" 3).participants.length < (mkRound "r1" "s" 3).min_participants) :=
  ⟨Reachable.create Reachable.init (by decide), by decide,
    active_waiting_iff_below_min traceEngine1
      (Reachable.create Reachable.init (by decide)) "r1" (mkRound "r1" "s" 3) (by decide)⟩

end FedLearn
